import Mathlib

/-!
# plugin-rewritebody: the response-rewriting middleware of rewritebody.go

The development embeds `New`, `rewriteBody.ServeHTTP`, `decompressBody`,
`prepareBodyBytes` and the methods of the wrapping `responseWriter` as Lean
functions with explicit state passing.

* The real `http.ResponseWriter` handed to `ServeHTTP` is an interface value:
  it is kept as its header map together with the list of calls made on it,
  each call recorded with the header map it could see.
* The upstream handler `next` is the list of calls it makes on the writer it
  is given during one exchange.
* The packages `regexp` and `compress/gzip` are not part of the repository.
  Every definition takes the calls it makes into them as a parameter
  (`Lib`); the general theorems hold for every such library.  A reference
  library `goLib` evaluates the concrete exchanges of the test file.
* `log.Printf` only writes to the process logger, which is not part of the
  state kept here.
-/

namespace plugin_rewritebody

/-- A byte slice (`[]byte`); every element stands for one byte. -/
abbrev Bytes := List Nat

/-! ## net/http as the plugin sees it -/

namespace http

/-- The map `http.Header`, kept as an association list: the entry of a key is
its first binding, deleting a key removes every binding. -/
abbrev Header := List (String × List String)

/-- The method `Header.Get`: the first value stored under the key, or the empty string.
The three keys the plugin uses are already in canonical form. -/
def Header.Get (h : Header) (key : String) : String :=
  match h.lookup key with
  | some (v :: _) => v
  | _ => ""

/-- The method `Header.Del`: removes the entry of the key. -/
def Header.Del (h : Header) (key : String) : Header :=
  h.filter (fun kv => kv.1 != key)

/-- The method `Header.Set`: replaces the entry of the key by the single value. -/
def Header.Set (h : Header) (key value : String) : Header :=
  (key, [value]) :: h.Del key

/-- The map has an entry for the key (`_, exists := h[key]`). -/
def Header.has (h : Header) (key : String) : Bool :=
  h.any (fun kv => kv.1 == key)

/-- One call made on the real response writer, with the header map as it
stood when the call was made. -/
inductive Call where
  | WriteHeader (statusCode : Int) (header : Header)
  | Write (p : Bytes) (header : Header)
  | Flush (header : Header)
  | Hijack
deriving DecidableEq, Repr

/-- The real `http.ResponseWriter`: its header map, the calls made on it so
far, and whether it also implements `http.Hijacker` and `http.Flusher`. -/
structure ResponseWriter where
  header : Header
  calls : List Call
  hijacker : Bool
  flusher : Bool
deriving DecidableEq, Repr

/-- The call `ResponseWriter.WriteHeader(statusCode)`. -/
def ResponseWriter.WriteHeader (r : ResponseWriter) (statusCode : Int) : ResponseWriter :=
  { r with calls := r.calls ++ [Call.WriteHeader statusCode r.header] }

/-- The call `ResponseWriter.Write(p)`. -/
def ResponseWriter.Write (r : ResponseWriter) (p : Bytes) : ResponseWriter :=
  { r with calls := r.calls ++ [Call.Write p r.header] }

/-- The call `Hijacker.Hijack()`. -/
def ResponseWriter.Hijack (r : ResponseWriter) : ResponseWriter :=
  { r with calls := r.calls ++ [Call.Hijack] }

/-- The call `Flusher.Flush()`. -/
def ResponseWriter.Flush (r : ResponseWriter) : ResponseWriter :=
  { r with calls := r.calls ++ [Call.Flush r.header] }

/-- The constant `http.StatusOK`. -/
def StatusOK : Int := 200

/-- The call is a `Write`. -/
def Call.isWrite : Call → Bool
  | Call.Write _ _ => true
  | _ => false

/-- The call is a `WriteHeader`. -/
def Call.isWriteHeader : Call → Bool
  | Call.WriteHeader _ _ => true
  | _ => false

/-- The body bytes a list of calls has written: the payloads of its `Write`
calls, in order. -/
def bodyWritten : List Call → Bytes
  | [] => []
  | Call.Write p _ :: cs => p ++ bodyWritten cs
  | _ :: cs => bodyWritten cs

/-- The header set a list of calls emits. Following `net/http` and
`httptest.ResponseRecorder`, the header map is fixed by the first call that
sends the header: a `WriteHeader`, or a `Write` or a `Flush` that finds no
header sent yet (each of them sends status 200 with the map as it stands).
After a `Hijack` the writer sends nothing more. -/
def headerEmitted : List Call → Option Header
  | [] => none
  | Call.WriteHeader _ h :: _ => some h
  | Call.Write _ h :: _ => some h
  | Call.Flush h :: _ => some h
  | Call.Hijack :: _ => none

end http

/-! ## The library calls of rewritebody.go -/

/-- The calls rewritebody.go makes into `regexp` and `compress/gzip`.
A `bytes.Buffer` is the list of its unread bytes, so a reader that consumes
from a buffer returns what it left unread. -/
structure Lib where
  /-- The type `*regexp.Regexp` -/
  Regexp : Type
  /-- The error of `regexp.Compile` -/
  CompileError : Type
  /-- The call `regexp.Compile(expr)` -/
  Compile : String → Except CompileError Regexp
  /-- The call `re.ReplaceAll(src, repl)` -/
  ReplaceAll : Regexp → Bytes → Bytes → Bytes
  /-- The type `*gzip.Reader` -/
  GzipReader : Type
  /-- The errors of the gzip reader -/
  ReadError : Type
  /-- The call `gzip.NewReader(&buffer)`: the reader or the error, and the unread part
  of the buffer -/
  NewReader : Bytes → Except ReadError GzipReader × Bytes
  /-- The call `r.Read(p)` with an empty `p`, on a reader over a buffer with the given
  unread bytes: the error and the unread part of the buffer -/
  ReadNil : GzipReader → Bytes → Option ReadError × Bytes
  /-- The type `*gzip.Writer` -/
  GzipWriter : Type
  /-- The errors of the gzip writer -/
  WriteError : Type
  /-- The call `gzip.NewWriter(&buf)` followed by `Write(p)` -/
  WriterWrite : Bytes → Except WriteError GzipWriter
  /-- The call `Close()` followed by `buf.Bytes()` -/
  WriterClose : GzipWriter → Except WriteError Bytes

/-! ## rewritebody.go -/

/-- The struct `Rewrite` holds one rewrite body configuration. -/
structure Rewrite where
  Regex : String
  Replacement : String
deriving DecidableEq, Repr

/-- The struct `Config` holds the plugin configuration. -/
structure Config where
  LastModified : Bool
  Rewrites : List Rewrite
deriving DecidableEq, Repr

/-- The function `CreateConfig` creates and initializes the plugin configuration. -/
def CreateConfig : Config :=
  { LastModified := false, Rewrites := [] }

/-- The UTF-8 encoding of one character. -/
def utf8EncodeChar (c : Char) : Bytes :=
  let v := c.toNat
  if v < 128 then [v]
  else if v < 2048 then [192 + v / 64, 128 + v % 64]
  else if v < 65536 then [224 + v / 4096, 128 + v / 64 % 64, 128 + v % 64]
  else [240 + v / 262144, 128 + v / 4096 % 64, 128 + v / 64 % 64, 128 + v % 64]

/-- The conversion `[]byte(s)` of a string. -/
def bytesOf (s : String) : Bytes :=
  s.data.flatMap utf8EncodeChar

/-- The struct `rewrite`: a compiled pattern and the replacement bytes. -/
structure rewrite (L : Lib) where
  regex : L.Regexp
  replacement : Bytes

/-- One call of the upstream handler on the writer it was given. `Header`
stands for `Header()` followed by any change of the returned map. -/
inductive HandlerCall where
  | Header (change : http.Header → http.Header)
  | WriteHeader (statusCode : Int)
  | Write (p : Bytes)
  | Flush
  | Hijack

/-- The upstream `http.Handler` during one exchange: the calls it makes. -/
abbrev Handler := List HandlerCall

/-- The struct `rewriteBody`. -/
structure rewriteBody (L : Lib) where
  name : String
  next : Handler
  rewrites : List (rewrite L)
  lastModified : Bool

/-- The value of `fmt.Errorf("error compiling regex %q: %w", regex, err)`,
kept as the two operands of the format. -/
structure NewError (L : Lib) where
  regex : String
  err : L.CompileError

/-- The loop of `New`. Slots `0 .. index-1` of the slice made before the
loop have been assigned and are carried as `rewrites`; the remaining slots
are only read after the loop has assigned them. -/
def New.loop (L : Lib) : List Rewrite → List (rewrite L) → Except (NewError L) (List (rewrite L))
  | [], rewrites => Except.ok rewrites
  | rewriteConfig :: rest, rewrites =>
    match L.Compile rewriteConfig.Regex with
    | Except.error err => Except.error { regex := rewriteConfig.Regex, err := err }
    | Except.ok regex =>
      New.loop L rest
        (rewrites ++ [{ regex := regex, replacement := bytesOf rewriteConfig.Replacement }])

/-- The function `New` creates and returns a new rewrite body plugin instance. -/
def New (L : Lib) (next : Handler) (config : Config) (name : String) :
    Except (NewError L) (rewriteBody L) :=
  match New.loop L config.Rewrites [] with
  | Except.error e => Except.error e
  | Except.ok rewrites =>
    Except.ok { name := name, next := next, rewrites := rewrites,
                lastModified := config.LastModified }

/-- The struct `responseWriter`: the buffer (its unread bytes), the two flags
and the embedded real writer. -/
structure responseWriter where
  buffer : Bytes
  lastModified : Bool
  wroteHeader : Bool
  ResponseWriter : http.ResponseWriter
deriving DecidableEq, Repr

/-- The call `wrappedWriter.ResponseWriter.Header().Del(key)`. -/
def responseWriter.delHeader (w : responseWriter) (key : String) : responseWriter :=
  { w with ResponseWriter := { w.ResponseWriter with header := w.ResponseWriter.header.Del key } }

/-- The method `responseWriter.WriteHeader`. -/
def responseWriter.WriteHeader (wrappedWriter : responseWriter) (statusCode : Int) :
    responseWriter :=
  let w1 := if !wrappedWriter.lastModified then wrappedWriter.delHeader "Last-Modified"
            else wrappedWriter
  let w2 := { w1 with wroteHeader := true }
  let w3 := w2.delHeader "Content-Length"
  { w3 with ResponseWriter := w3.ResponseWriter.WriteHeader statusCode }

/-- The method `responseWriter.Write`: the result `(n, err)` of `buffer.Write(p)` and
the writer afterwards. -/
def responseWriter.Write (wrappedWriter : responseWriter) (p : Bytes) :
    (Nat × Option Unit) × responseWriter :=
  let w1 := if !wrappedWriter.wroteHeader then wrappedWriter.WriteHeader http.StatusOK
            else wrappedWriter
  ((p.length, none), { w1 with buffer := w1.buffer ++ p })

/-- The method `responseWriter.Hijack`: whether the real writer is a `http.Hijacker`
(otherwise an error is returned), and the writer afterwards. -/
def responseWriter.Hijack (wrappedWriter : responseWriter) : Bool × responseWriter :=
  if wrappedWriter.ResponseWriter.hijacker then
    (true, { wrappedWriter with ResponseWriter := wrappedWriter.ResponseWriter.Hijack })
  else
    (false, wrappedWriter)

/-- The method `responseWriter.Flush`. -/
def responseWriter.Flush (wrappedWriter : responseWriter) : responseWriter :=
  if wrappedWriter.ResponseWriter.flusher then
    { wrappedWriter with ResponseWriter := wrappedWriter.ResponseWriter.Flush }
  else
    wrappedWriter

/-- The effect of one call of the upstream handler on the wrapped writer. -/
def responseWriter.call (w : responseWriter) : HandlerCall → responseWriter
  | HandlerCall.Header change =>
    { w with ResponseWriter := { w.ResponseWriter with header := change w.ResponseWriter.header } }
  | HandlerCall.WriteHeader statusCode => w.WriteHeader statusCode
  | HandlerCall.Write p => (w.Write p).2
  | HandlerCall.Flush => w.Flush
  | HandlerCall.Hijack => w.Hijack.2

/-- The call `next.ServeHTTP(wrappedWriter, req)`: the handler's calls, in order. -/
def Handler.ServeHTTP (next : Handler) (w : responseWriter) : responseWriter :=
  next.foldl responseWriter.call w

/-- The method `responseWriter.decompressBody`: the results `(isGzip, err)` and the
writer afterwards (the reader consumes from the buffer). -/
def responseWriter.decompressBody (L : Lib) (wrappedWriter : responseWriter) :
    (Bool × Option L.ReadError) × responseWriter :=
  let contentEncoding := wrappedWriter.ResponseWriter.header.Get "Content-Encoding"
  if contentEncoding != "gzip" then
    ((false, none), wrappedWriter)
  else
    match L.NewReader wrappedWriter.buffer with
    | (Except.error err, unread) => ((true, some err), { wrappedWriter with buffer := unread })
    | (Except.ok r, unread) =>
      let (err, unread2) := L.ReadNil r unread
      ((true, err), { wrappedWriter with buffer := unread2 })

/-- The function `prepareBodyBytes`. -/
def prepareBodyBytes (L : Lib) (bodyBytes : Bytes) (isGzip : Bool) : Bytes :=
  if !isGzip then
    bodyBytes
  else
    match L.WriterWrite bodyBytes with
    | Except.error _ => bodyBytes
    | Except.ok gzipWriter =>
      match L.WriterClose gzipWriter with
      | Except.error _ => bodyBytes
      | Except.ok b => b

/-- The loop `for _, rwt := range bodyRewrite.rewrites` of `ServeHTTP`. -/
def rewriteLoop (L : Lib) (rewrites : List (rewrite L)) (bodyBytes : Bytes) : Bytes :=
  rewrites.foldl (fun b rwt => L.ReplaceAll rwt.regex b rwt.replacement) bodyBytes

/-- The wrapped writer `ServeHTTP` hands to the upstream handler. -/
def wrap (L : Lib) (bodyRewrite : rewriteBody L) (response : http.ResponseWriter) :
    responseWriter :=
  { lastModified := bodyRewrite.lastModified, ResponseWriter := response,
    buffer := [], wroteHeader := false }

/-- The method `rewriteBody.ServeHTTP`: the real response writer after the exchange. -/
def rewriteBody.ServeHTTP (L : Lib) (bodyRewrite : rewriteBody L)
    (response : http.ResponseWriter) : http.ResponseWriter :=
  let wrappedWriter := bodyRewrite.next.ServeHTTP (wrap L bodyRewrite response)
  let ((isGzip, _), wrappedWriter) := wrappedWriter.decompressBody L
  let bodyBytes := wrappedWriter.buffer
  let contentEncoding := wrappedWriter.ResponseWriter.header.Get "Content-Encoding"
  if !isGzip && contentEncoding != "" && contentEncoding != "identity" then
    wrappedWriter.ResponseWriter.Write bodyBytes
  else
    let bodyBytes := rewriteLoop L bodyRewrite.rewrites bodyBytes
    let preparedBody := prepareBodyBytes L bodyBytes isGzip
    wrappedWriter.ResponseWriter.Write preparedBody


/-! ## A reference library

The models below follow the Go standard library closely enough to evaluate
the exchanges of the test file.

* `regexp`: patterns that are non-empty ASCII literals, replacements
  without `$`.
* `compress/gzip`, reader: the header parser, the `compress/flate`
  decompressor (stored, fixed and dynamic blocks) driven as one `Read` into
  an empty slice drives it, and the trailer check.
* `compress/gzip`, writer: a body is coded as literals of the fixed code.
  For "foo is the new bar" this is byte for byte the stream `gzippedBytes`
  of compressutil_test.go; what is stated about a written gzip body is stated
  about its decoding.

No general theorem depends on these models: `Lib` is a parameter there. -/

namespace golib

/-! ### regexp, literal patterns -/

/-- The bytes that have a meaning in the pattern syntax. -/
def metaBytes : Bytes :=
  [92, 46, 43, 42, 63, 40, 41, 124, 91, 93, 123, 125, 94, 36]

/-- The errors of `Compile` in this library. -/
inductive CompileError where
  | missingRepetitionArgument
  | notLiteral
deriving DecidableEq, Repr

/-- The function `regexp.Compile` for literal patterns. A non-empty pattern
of ASCII characters none of which is a metacharacter compiles to the regular
expression that matches exactly its bytes; a pattern that starts with a
repetition operator is rejected as `regexp.Compile` rejects it (missing
argument to repetition operator). Every other pattern is outside what this
library covers and is rejected as `notLiteral`. -/
def Compile (expr : String) : Except CompileError Bytes :=
  match bytesOf expr with
  | [] => Except.error CompileError.notLiteral
  | c :: cs =>
    if c = 42 ∨ c = 43 ∨ c = 63 then Except.error CompileError.missingRepetitionArgument
    else if (c :: cs).all (fun x => decide (x < 128) && !metaBytes.contains x) then
      Except.ok (c :: cs)
    else Except.error CompileError.notLiteral

/-- The pattern bytes stand at the head of the source. -/
def startsWith : Bytes → Bytes → Bool
  | [], _ => true
  | _ :: _, [] => false
  | p :: ps, c :: cs => p == c && startsWith ps cs

/-- The method `ReplaceAll` for a literal pattern and a replacement without
`$`: every leftmost non-overlapping occurrence of the pattern is replaced.
`skip` counts the bytes of the current match still to pass over. -/
def replaceAllLiteral (pat repl : Bytes) : Nat → Bytes → Bytes
  | _, [] => []
  | skip + 1, _ :: cs => replaceAllLiteral pat repl skip cs
  | 0, c :: cs =>
    if startsWith pat (c :: cs) then repl ++ replaceAllLiteral pat repl (pat.length - 1) cs
    else c :: replaceAllLiteral pat repl 0 cs

/-! ### compress/flate: the decompressor -/

/-- The error values the readers return. -/
inductive Error where
  | EOF
  | ErrUnexpectedEOF
  | ErrHeader
  | ErrChecksum
  | CorruptInput
deriving DecidableEq, Repr

/-- The bit register of the flate decompressor over its byte source:
the unread bytes, the register `b` and the number `nb` of bits in it. -/
structure Bits where
  src : Bytes
  b : Nat
  nb : Nat
deriving DecidableEq, Repr

/-- Moves bytes into the register (`moreBits`) until it holds `n` bits;
`none` when the source ends first. -/
def need (n : Nat) (b nb : Nat) : Bytes → Option Bits
  | [] => if n ≤ nb then some { src := [], b := b, nb := nb } else none
  | c :: cs =>
    if n ≤ nb then some { src := c :: cs, b := b, nb := nb }
    else need n (b + (c % 256) * 2 ^ nb) (nb + 8) cs

/-- Takes the low `n` bits out of the register. -/
def Bits.take (r : Bits) (n : Nat) : Nat × Bits :=
  (r.b % 2 ^ n, { r with b := r.b / 2 ^ n, nb := r.nb - n })

/-- Reads `n` bits, least significant first. -/
def Bits.read (r : Bits) (n : Nat) : Option (Nat × Bits) :=
  match need n r.b r.nb r.src with
  | none => none
  | some r1 => some (r1.take n)

/-- A `huffmanDecoder`: the shortest code length, the number of codes of each
length, and the symbols ordered by code. -/
structure Huffman where
  min : Nat
  counts : List Nat
  symbols : List Nat
deriving DecidableEq, Repr

/-- The symbols that have the given code length, in increasing order. -/
def symbolsOfLength (lengths : List Nat) (len : Nat) : List Nat :=
  (List.range lengths.length).filter (fun s => lengths.getD s 0 == len)

/-- The code value after the lengths `1 .. max`: `code` of `huffmanDecoder.init`. -/
def kraft (counts : List Nat) : Nat → Nat
  | 0 => 0
  | len + 1 => 2 * kraft counts len + counts.getD (len + 1) 0

/-- The method `huffmanDecoder.init`: `none` when the lengths are not a
complete code (the single one-bit code and the empty code are accepted). -/
def Huffman.init (lengths : List Nat) : Option Huffman :=
  let counts := (List.range 16).map (fun len => if len = 0 then 0 else
    (lengths.filter (fun n => n == len)).length)
  let used := (List.range 16).filter (fun len => counts.getD len 0 != 0)
  let min := used.head?.getD 0
  let max := used.getLast?.getD 0
  let h : Huffman := { min := min, counts := counts,
                       symbols := (List.range 16).flatMap (fun len =>
                         if len = 0 then [] else symbolsOfLength lengths len) }
  if max = 0 then some h
  else
    let code := kraft counts max
    if code != 2 ^ max && !(code == 1 && max == 1) then none else some h

/-- The code that is a prefix of the register bits `b` (taken least
significant first): its symbol and its length, or length 0 when there is
none. `len` is the length tried, `code` the bits before it, `first` the first
code of that length and `index` the number of shorter codes. -/
def Huffman.lookup (h : Huffman) : Nat → Nat → Nat → Nat → Nat → Nat → Nat × Nat
  | 0, _, _, _, _, _ => (0, 0)
  | fuel + 1, len, code, first, index, b =>
    let code := 2 * code + b % 2
    let count := h.counts.getD len 0
    if code < first + count then (h.symbols.getD (index + (code - first)) 0, len)
    else h.lookup fuel (len + 1) code (2 * (first + count)) (index + count) (b / 2)

/-- The loop of `huffSym`: have `n` bits in the register, look the code up,
and go round again when it is longer than what the register holds. -/
def huffSymLoop (h : Huffman) : Nat → Nat → Bits → Except (Error × Bytes) (Nat × Bits)
  | 0, _, r => Except.error (Error.CorruptInput, r.src)
  | fuel + 1, n, r =>
    match need n r.b r.nb r.src with
    | none => Except.error (Error.ErrUnexpectedEOF, [])
    | some r1 =>
      let (sym, len) := h.lookup 15 1 0 0 0 r1.b
      if len ≤ r1.nb then
        if len = 0 then Except.error (Error.CorruptInput, r1.src)
        else Except.ok (sym, (r1.take len).2)
      else huffSymLoop h fuel len r1

/-- The method `huffSym`: decodes one symbol. -/
def huffSym (h : Huffman) (r : Bits) : Except (Error × Bytes) (Nat × Bits) :=
  huffSymLoop h 16 h.min r

/-- The code lengths of the fixed literal/length code. -/
def fixedLengths : List Nat :=
  List.replicate 144 8 ++ List.replicate 112 9 ++ List.replicate 24 7 ++ List.replicate 8 8

/-- The decoder `fixedHuffmanDecoder`. -/
def fixedHuffmanDecoder : Huffman :=
  (Huffman.init fixedLengths).getD { min := 0, counts := [], symbols := [] }

/-- The order `codeOrder` of the code length code lengths. -/
def codeOrder : List Nat :=
  [16, 17, 18, 0, 8, 7, 9, 6, 10, 5, 11, 4, 12, 3, 13, 2, 14, 1, 15]

/-- The size of the window of the decompressor. -/
def windowSize : Nat := 32768


/-- Reads the code lengths of a dynamic block with the code length decoder
`h1`: `bits` holds the lengths read so far (latest first), `n` is the number
wanted. -/
def readLengths (h1 : Huffman) (n : Nat) :
    Nat → List Nat → Bits → Except (Error × Bytes) (List Nat × Bits)
  | 0, _, r => Except.error (Error.CorruptInput, r.src)
  | fuel + 1, bits, r =>
    if n ≤ bits.length then Except.ok (bits.reverse, r)
    else
      match huffSym h1 r with
      | Except.error e => Except.error e
      | Except.ok (x, r1) =>
        if x < 16 then readLengths h1 n fuel (x :: bits) r1
        else if x = 16 ∧ bits.length = 0 then Except.error (Error.CorruptInput, r1.src)
        else
          let rep := if x = 18 then 11 else 3
          let nb := if x = 16 then 2 else if x = 17 then 3 else 7
          let b := if x = 16 then bits.headD 0 else 0
          match r1.read nb with
          | none => Except.error (Error.ErrUnexpectedEOF, [])
          | some (extra, r2) =>
            if n < bits.length + (rep + extra) then Except.error (Error.CorruptInput, r2.src)
            else readLengths h1 n fuel (List.replicate (rep + extra) b ++ bits) r2

/-- The three-bit code length code lengths, read in the order `codeOrder`. -/
def readCodebits : Nat → Bits → Except (Error × Bytes) (List Nat × Bits)
  | 0, r => Except.ok ([], r)
  | k + 1, r =>
    match r.read 3 with
    | none => Except.error (Error.ErrUnexpectedEOF, [])
    | some (v, r1) =>
      match readCodebits k r1 with
      | Except.error e => Except.error e
      | Except.ok (vs, r2) => Except.ok (v :: vs, r2)

/-- The method `readHuffman`: the literal/length and the distance decoder of
a dynamic block. -/
def readHuffman (r : Bits) : Except (Error × Bytes) ((Huffman × Huffman) × Bits) :=
  match need 14 r.b r.nb r.src with
  | none => Except.error (Error.ErrUnexpectedEOF, [])
  | some r0 =>
    let nlit := r0.b % 32 + 257
    let ndist := r0.b / 32 % 32 + 1
    let nclen := r0.b / 1024 % 16 + 4
    if 286 < nlit then Except.error (Error.CorruptInput, r0.src)
    else if 30 < ndist then Except.error (Error.CorruptInput, r0.src)
    else
      match readCodebits nclen (r0.take 14).2 with
      | Except.error e => Except.error e
      | Except.ok (vs, r1) =>
        let codebits := (List.range 19).map (fun sym =>
          vs.getD (codeOrder.indexOf sym) 0)
        match Huffman.init codebits with
        | none => Except.error (Error.CorruptInput, r1.src)
        | some hc =>
          match readLengths hc (nlit + ndist) (nlit + ndist + 1) [] r1 with
          | Except.error e => Except.error e
          | Except.ok (bits, r2) =>
            match Huffman.init (bits.take nlit), Huffman.init (bits.drop nlit) with
            | some h1, some h2 =>
              let eob := bits.getD 256 0
              Except.ok (({ h1 with min := if h1.min < eob then eob else h1.min }, h2), r2)
            | _, _ => Except.error (Error.CorruptInput, r2.src)

/-- The length a length symbol `257 .. 285` stands for and the number of
extra bits that follow it. -/
def lengthBase (v : Nat) : Nat × Nat :=
  if v < 265 then (v - (257 - 3), 0)
  else if v < 269 then (v * 2 - (265 * 2 - 11), 1)
  else if v < 273 then (v * 4 - (269 * 4 - 19), 2)
  else if v < 277 then (v * 8 - (273 * 8 - 35), 3)
  else if v < 281 then (v * 16 - (277 * 16 - 67), 4)
  else if v < 285 then (v * 32 - (281 * 32 - 131), 5)
  else (258, 0)

/-- The five bits of a fixed distance code, most significant first. -/
def reverse5 (x : Nat) : Nat :=
  x % 2 * 16 + x / 2 % 2 * 8 + x / 4 % 2 * 4 + x / 8 % 2 * 2 + x / 16 % 2

/-- The distance code of a match: five reversed bits in a fixed block, a
symbol of the distance decoder otherwise. -/
def readDistCode (hd : Option Huffman) (r : Bits) : Except (Error × Bytes) (Nat × Bits) :=
  match hd with
  | none =>
    match r.read 5 with
    | none => Except.error (Error.ErrUnexpectedEOF, [])
    | some (v, r1) => Except.ok (reverse5 v, r1)
  | some h => huffSym h r

/-- The distance of a match: the distance code and its extra bits. -/
def readDist (hd : Option Huffman) (r : Bits) : Except (Error × Bytes) (Nat × Bits) :=
  match readDistCode hd r with
  | Except.error e => Except.error e
  | Except.ok (dist, r1) =>
    if dist < 4 then Except.ok (dist + 1, r1)
    else if dist < 30 then
      let nb := (dist - 2) / 2
      match r1.read nb with
      | none => Except.error (Error.ErrUnexpectedEOF, [])
      | some (extra, r2) => Except.ok (2 ^ (nb + 1) + 1 + (dist % 2 * 2 ^ nb + extra), r2)
    else Except.error (Error.CorruptInput, r1.src)

/-- The backward copy of a match into the history (latest byte first). -/
def copyHistory : Nat → Nat → Bytes → Bytes
  | 0, _, hist => hist
  | len + 1, dist, hist => copyHistory len dist (hist.getD (dist - 1) 0 :: hist)

/-- How a run of the decompressor ended: the final block is done (its error
is `io.EOF`), output is waiting to be read, or an error. -/
inductive Status where
  | eof
  | more
  | fail (e : Error)
deriving DecidableEq, Repr

/-- The decompressor when it stops: the bytes it decoded (latest first) and
the unread bytes of the source. -/
structure Result where
  status : Status
  hist : Bytes
  unread : Bytes
deriving DecidableEq, Repr

/-- The pending `step` of the decompressor. -/
inductive Step where
  | nextBlock
  | huffmanBlock (hl : Huffman) (hd : Option Huffman) (final : Bool)

/-- The steps of the decompressor (`nextBlock`, `dataBlock`, `copyData`,
`huffmanBlock`). With `zeroRead` the run is that of one `Read` into an empty
slice: it stops as soon as decoded bytes are handed over (the window is full,
a match does not fit, or an empty stored block flushes a window that holds
bytes). Without it the run goes on to the end of the final block. -/
def run (zeroRead : Bool) : Nat → Step → Bits → Bytes → Result
  | 0, _, r, hist => { status := Status.fail Error.CorruptInput, hist := hist, unread := r.src }
  | fuel + 1, Step.nextBlock, r, hist =>
    match r.read 3 with
    | none => { status := Status.fail Error.ErrUnexpectedEOF, hist := hist, unread := [] }
    | some (hdr, r1) =>
      let final := hdr % 2 == 1
      let typ := hdr / 2
      if typ = 0 then
        -- dataBlock: the rest of the current byte is dropped
        match r1.src with
        | b0 :: b1 :: b2 :: b3 :: src =>
          let n := b0 % 256 + 256 * (b1 % 256)
          let nn := b2 % 256 + 256 * (b3 % 256)
          if nn != 65535 - n then
            { status := Status.fail Error.CorruptInput, hist := hist, unread := src }
          else if n = 0 then
            if zeroRead && !hist.isEmpty then
              { status := Status.more, hist := hist, unread := src }
            else if final then { status := Status.eof, hist := hist, unread := src }
            else run zeroRead fuel Step.nextBlock { src := src, b := 0, nb := 0 } hist
          else
            -- copyData
            let m := if zeroRead then min n (windowSize - hist.length) else n
            let data := src.take m
            let hist1 := data.reverse ++ hist
            if data.length < m then
              { status := Status.fail Error.ErrUnexpectedEOF, hist := hist1, unread := [] }
            else if zeroRead && (hist1.length == windowSize || m < n) then
              { status := Status.more, hist := hist1, unread := src.drop m }
            else if final then { status := Status.eof, hist := hist1, unread := src.drop m }
            else run zeroRead fuel Step.nextBlock { src := src.drop m, b := 0, nb := 0 } hist1
        | _ => { status := Status.fail Error.ErrUnexpectedEOF, hist := hist, unread := [] }
      else if typ = 1 then
        run zeroRead fuel (Step.huffmanBlock fixedHuffmanDecoder none final) r1 hist
      else if typ = 2 then
        match readHuffman r1 with
        | Except.error (e, unread) => { status := Status.fail e, hist := hist, unread := unread }
        | Except.ok ((h1, h2), r2) =>
          run zeroRead fuel (Step.huffmanBlock h1 (some h2) final) r2 hist
      else { status := Status.fail Error.CorruptInput, hist := hist, unread := r1.src }
  | fuel + 1, Step.huffmanBlock hl hd final, r, hist =>
    match huffSym hl r with
    | Except.error (e, unread) => { status := Status.fail e, hist := hist, unread := unread }
    | Except.ok (v, r1) =>
      if v < 256 then
        let hist1 := v :: hist
        if zeroRead && hist1.length == windowSize then
          { status := Status.more, hist := hist1, unread := r1.src }
        else run zeroRead fuel (Step.huffmanBlock hl hd final) r1 hist1
      else if v = 256 then
        if final then { status := Status.eof, hist := hist, unread := r1.src }
        else run zeroRead fuel Step.nextBlock r1 hist
      else if v < 286 then
        match r1.read (lengthBase v).2 with
        | none => { status := Status.fail Error.ErrUnexpectedEOF, hist := hist, unread := [] }
        | some (extra, r2) =>
          let length := (lengthBase v).1 + extra
          match readDist hd r2 with
          | Except.error (e, unread) => { status := Status.fail e, hist := hist, unread := unread }
          | Except.ok (dist, r3) =>
            if min hist.length windowSize < dist then
              { status := Status.fail Error.CorruptInput, hist := hist, unread := r3.src }
            else if zeroRead && windowSize ≤ hist.length + length then
              { status := Status.more,
                hist := copyHistory (windowSize - hist.length) dist hist, unread := r3.src }
            else run zeroRead fuel (Step.huffmanBlock hl hd final) r3
                   (copyHistory length dist hist)
      else { status := Status.fail Error.CorruptInput, hist := hist, unread := r1.src }

/-- A fresh decompressor over the source, run as above. Every step takes at
least one bit, so the fuel is never used up. -/
def inflate (zeroRead : Bool) (src : Bytes) : Result :=
  run zeroRead (8 * src.length + 8) Step.nextBlock { src := src, b := 0, nb := 0 } []

/-- The result of `Read(p)` with an empty `p` on a fresh flate reader: the
error and the unread bytes of the source. Decoded bytes stay in the reader,
and while it holds any the call reports no error. -/
def flateReadNil (src : Bytes) : Option Error × Bytes :=
  let res := inflate true src
  if !res.hist.isEmpty then (none, res.unread)
  else
    match res.status with
    | Status.eof => (some Error.EOF, res.unread)
    | Status.more => (none, res.unread)
    | Status.fail e => (some e, res.unread)

/-- The decoding of a whole deflate stream: the decoded bytes and the bytes
after the stream. -/
def inflateAll (src : Bytes) : Option (Bytes × Bytes) :=
  let res := inflate false src
  if res.status = Status.eof then some (res.hist.reverse, res.unread) else none


/-! ### hash/crc32, hash/adler32 -/

/-- One byte of the CRC-32 register update: eight shifts with the reversed
IEEE polynomial. -/
def crcShift : Nat → Nat → Nat
  | 0, crc => crc
  | k + 1, crc => crcShift k (if crc % 2 = 1 then (crc / 2) ^^^ 3988292384 else crc / 2)

/-- The checksum `crc32.ChecksumIEEE`. -/
def crc32 (p : Bytes) : Nat :=
  (p.foldl (fun crc c => crcShift 8 (crc ^^^ (c % 256))) 4294967295) ^^^ 4294967295

/-- The checksum `adler32.Checksum`. -/
def adler32 (p : Bytes) : Nat :=
  let ab := p.foldl (fun (ab : Nat × Nat) c =>
    ((ab.1 + c % 256) % 65521, (ab.2 + (ab.1 + c % 256) % 65521) % 65521)) (1, 0)
  ab.2 * 65536 + ab.1

/-- The little-endian value of a byte sequence. -/
def le : Bytes → Nat
  | [] => 0
  | c :: cs => c % 256 + 256 * le cs

/-- The four bytes of a 32-bit value, least significant first. -/
def le32 (v : Nat) : Bytes :=
  [v % 256, v / 256 % 256, v / 65536 % 256, v / 16777216 % 256]

/-! ### compress/gzip: the reader -/

/-- The method `readString` of the gzip reader: a NUL-terminated header
string of at most 512 bytes, returned with its terminator. -/
def readString : Nat → Bytes → Bytes → Except Error Bytes × Bytes
  | 0, _, src => (Except.error Error.ErrHeader, src)
  | _ + 1, _, [] => (Except.error Error.ErrUnexpectedEOF, [])
  | k + 1, acc, c :: cs =>
    if c % 256 = 0 then (Except.ok (acc ++ [c]), cs) else readString k (acc ++ [c]) cs

/-- The optional extra field of the header: the bytes read (they enter the
header digest) and the unread bytes. -/
def readExtra (flg : Nat) (src : Bytes) : Except Error Bytes × Bytes :=
  if flg / 4 % 2 = 0 then (Except.ok [], src)
  else if src.length < 2 then (Except.error Error.ErrUnexpectedEOF, [])
  else if (src.drop 2).length < le (src.take 2) then (Except.error Error.ErrUnexpectedEOF, [])
  else (Except.ok (src.take (2 + le (src.take 2))), src.drop (2 + le (src.take 2)))

/-- An optional header string, present when the flag bit is set. -/
def readOptString (flg bit : Nat) (src : Bytes) : Except Error Bytes × Bytes :=
  if flg / bit % 2 = 0 then (Except.ok [], src) else readString 512 [] src

/-- The optional header checksum: the low 16 bits of the CRC-32 of the header
bytes before it. -/
def readHdrCrc (flg : Nat) (header src : Bytes) : Except Error Unit × Bytes :=
  if flg / 2 % 2 = 0 then (Except.ok (), src)
  else if src.length < 2 then (Except.error Error.ErrUnexpectedEOF, [])
  else if le (src.take 2) != crc32 header % 65536 then (Except.error Error.ErrHeader, src.drop 2)
  else (Except.ok (), src.drop 2)

/-- The method `readHeader` of the gzip reader on a buffer with the given
unread bytes: the error, if any, and the unread bytes afterwards. -/
def readHeader (src : Bytes) : Except Error Unit × Bytes :=
  if src.length < 10 then
    (Except.error (if src.isEmpty then Error.EOF else Error.ErrUnexpectedEOF), [])
  else
    let buf := src.take 10
    if buf.getD 0 0 % 256 != 31 || buf.getD 1 0 % 256 != 139 || buf.getD 2 0 % 256 != 8 then
      (Except.error Error.ErrHeader, src.drop 10)
    else
      let flg := buf.getD 3 0 % 256
      match readExtra flg (src.drop 10) with
      | (Except.error e, u) => (Except.error e, u)
      | (Except.ok extra, u1) =>
        match readOptString flg 8 u1 with
        | (Except.error e, u) => (Except.error e, u)
        | (Except.ok name, u2) =>
          match readOptString flg 16 u2 with
          | (Except.error e, u) => (Except.error e, u)
          | (Except.ok comment, u3) => readHdrCrc flg (buf ++ extra ++ name ++ comment) u3

/-- The function `gzip.NewReader` on a buffer with the given unread bytes.
The reader reads bytes one at a time from the buffer (a `bytes.Buffer` is an
`io.ByteReader`), so nothing is read ahead. -/
def NewReader (src : Bytes) : Except Error Unit × Bytes :=
  readHeader src

/-- The method `Read(p)` of the gzip reader with an empty `p`, right after
`NewReader`. Nothing is copied out, so the digest and the size stay zero: a
member that ends without output must have the all-zero trailer, and then the
next member is entered. -/
def gzipReadNil : Nat → Bytes → Option Error × Bytes
  | 0, src => (none, src)
  | fuel + 1, src =>
    match flateReadNil src with
    | (some Error.EOF, unread) =>
      if unread.length < 8 then (some Error.ErrUnexpectedEOF, [])
      else if le (unread.take 4) != 0 || le ((unread.drop 4).take 4) != 0 then
        (some Error.ErrChecksum, unread.drop 8)
      else
        match readHeader (unread.drop 8) with
        | (Except.error e, u) => (some e, u)
        | (Except.ok _, u) => gzipReadNil fuel u
    | (err, unread) => (err, unread)

/-- The members of a gzip stream after the first header, decoded in turn. -/
def gunzipMembers : Nat → Bytes → Bytes → Option Bytes
  | 0, _, _ => none
  | fuel + 1, src, acc =>
    match inflateAll src with
    | none => none
    | some (out, rest) =>
      if rest.length < 8 then none
      else if le (rest.take 4) != crc32 out ||
          le ((rest.drop 4).take 4) != out.length % 4294967296 then none
      else
        match readHeader (rest.drop 8) with
        | (Except.error Error.EOF, _) => some (acc ++ out)
        | (Except.error _, _) => none
        | (Except.ok _, u) => gunzipMembers fuel u (acc ++ out)

/-- The decoding of a gzip stream (what reading a `gzip.Reader` to the end
yields), `none` when the stream is not valid. -/
def gunzip (src : Bytes) : Option Bytes :=
  match readHeader src with
  | (Except.ok _, u) => gunzipMembers (src.length + 1) u []
  | _ => none

/-- The decoding of a zlib stream (what reading a `zlib` reader to the end
yields), `none` when the stream is not valid. -/
def zlibDecode (src : Bytes) : Option Bytes :=
  match src with
  | cmf :: flg :: rest =>
    if cmf % 16 != 8 || 7 < cmf / 16 || (256 * cmf + flg) % 31 != 0 || flg / 32 % 2 != 0 then none
    else
      match inflateAll rest with
      | none => none
      | some (out, trailer) =>
        if trailer.length < 4 then none
        else if le (trailer.take 4).reverse != adler32 out then none
        else some out
  | _ => none

/-! ### compress/gzip: the writer -/

/-- The bits of the fixed code of a literal, in the order they are written. -/
def fixedLiteralBits (v : Nat) : List Nat :=
  if v < 144 then (List.range 8).map (fun i => (48 + v) / 2 ^ (7 - i) % 2)
  else (List.range 9).map (fun i => (400 + (v - 144)) / 2 ^ (8 - i) % 2)

/-- The value of a list of bits, least significant first. -/
def bitsValue : List Nat → Nat
  | [] => 0
  | b :: bs => b + 2 * bitsValue bs

/-- Packs bits into bytes, least significant bit first; the last byte is
padded with zero bits. -/
def packBits : Nat → List Nat → Bytes
  | 0, _ => []
  | _ + 1, [] => []
  | fuel + 1, bits => bitsValue (bits.take 8) :: packBits fuel (bits.drop 8)

/-- The deflate stream the writer produces for a body it codes as literals
with the fixed code: one fixed block holding the literals (none for an empty
body), then the empty stored block that ends the stream. -/
def deflateFixed (p : Bytes) : Bytes :=
  let block := if p.isEmpty then [] else
    [0, 1, 0] ++ p.flatMap (fun v => fixedLiteralBits (v % 256)) ++ List.replicate 7 0
  packBits (block.length + 3) (block ++ [1, 0, 0]) ++ [0, 0, 255, 255]

/-- The gzip member the writer produces: the ten-byte header, the deflate
stream, the CRC-32 and the length of the body. -/
def gzipEncode (p : Bytes) : Bytes :=
  [31, 139, 8, 0, 0, 0, 0, 0, 0, 255] ++ deflateFixed p ++ le32 (crc32 p) ++
    le32 (p.length % 4294967296)

end golib

/-- The reference library: literal regular expressions, the gzip reader over
a `bytes.Buffer`, and a gzip writer into a `bytes.Buffer` (its writes never
fail). -/
def goLib : Lib where
  Regexp := Bytes
  CompileError := golib.CompileError
  Compile := golib.Compile
  ReplaceAll := fun re src repl => golib.replaceAllLiteral re repl 0 src
  GzipReader := Unit
  ReadError := golib.Error
  NewReader := golib.NewReader
  ReadNil := fun _ src => golib.gzipReadNil (src.length + 1) src
  GzipWriter := Bytes
  WriteError := Unit
  WriterWrite := fun p => Except.ok p
  WriterClose := fun p => Except.ok (golib.gzipEncode p)

/-! ## The exchanges of rewritebody_test.go -/

/-- The recorder `httptest.NewRecorder()`: no header, no call yet; it is a
`http.Flusher` and not a `http.Hijacker`. -/
def recorder : http.ResponseWriter :=
  { header := [], calls := [], hijacker := false, flusher := true }

/-- The upstream handler `next` of `TestServeHTTP`. -/
def testNext (contentEncoding contentType : String) (resBody : Bytes) : Handler :=
  [ HandlerCall.Header (fun h => h.Set "Content-Encoding" contentEncoding),
    HandlerCall.Header (fun h => h.Set "Content-Type" contentType),
    HandlerCall.Header (fun h => h.Set "Last-Modified" "Thu, 02 Jun 2016 06:01:08 GMT"),
    HandlerCall.Header (fun h => h.Set "Content-Length" (toString resBody.length)),
    HandlerCall.WriteHeader http.StatusOK,
    HandlerCall.Write resBody ]

/-- The rule `foo` to `bar` as `New` builds it with the reference library. -/
def fooToBar : rewrite goLib :=
  { regex := bytesOf "foo", replacement := bytesOf "bar" }

/-- The rule `bar` to `foo` as `New` builds it with the reference library. -/
def barToFoo : rewrite goLib :=
  { regex := bytesOf "bar", replacement := bytesOf "foo" }

/-- The plugin instance of one test case. -/
def testPlugin (rewrites : List (rewrite goLib)) (lastModified : Bool)
    (contentEncoding contentType : String) (resBody : Bytes) : rewriteBody goLib :=
  { name := "rewriteBody", next := testNext contentEncoding contentType resBody,
    rewrites := rewrites, lastModified := lastModified }

/-- The configuration of the case "should return an error" of `TestNew`. -/
def starConfig : Config :=
  { LastModified := false, Rewrites := [{ Regex := "*", Replacement := "bar" }] }

/-- The configuration of the case "should return no error" of `TestNew`. -/
def fooBarConfig : Config :=
  { LastModified := false,
    Rewrites := [{ Regex := "foo", Replacement := "bar" }, { Regex := "bar", Replacement := "foo" }] }

/-- The bytes `gzippedBytes` of compressutil_test.go: the gzip encoding of
"foo is the new bar". -/
def gzippedBytes : Bytes :=
  [31, 139, 8, 0, 0, 0, 0, 0, 0, 255, 74, 203, 207, 87, 200, 44, 86, 40, 201, 72, 85, 200, 75,
   45, 87, 72, 74, 44, 2, 4, 0, 0, 255, 255, 251, 28, 166, 187, 18, 0, 0, 0]

/-- The zlib encoding of "foo is the new bar": the two header bytes, the
deflate stream `deflatedBytes` of compressutil_test.go and the Adler-32
checksum. -/
def zlibBytes : Bytes :=
  [120, 156, 74, 203, 207, 87, 200, 44, 86, 40, 201, 72, 85, 200, 75, 45, 87, 72, 74, 44, 2,
   4, 0, 0, 255, 255, 60, 168, 6, 97]

/-! ## Reading an exchange -/

/-- The concatenation of the upstream handler's writes. -/
def Handler.body : Handler → Bytes
  | [] => []
  | HandlerCall.Write p :: cs => p ++ Handler.body cs
  | _ :: cs => Handler.body cs

/-- The rules applied in configured order, the output of each rule being the
input of the next. -/
def applyRules (L : Lib) : List (rewrite L) → Bytes → Bytes
  | [], b => b
  | r :: rs, b => applyRules L rs (L.ReplaceAll r.regex b r.replacement)

/-- The header map the upstream handler leaves behind: what `Header().Get`
reads once the handler has returned. -/
def upstreamHeader (L : Lib) (bodyRewrite : rewriteBody L) (response : http.ResponseWriter) :
    http.Header :=
  (bodyRewrite.next.ServeHTTP (wrap L bodyRewrite response)).ResponseWriter.header

/-- The calls on the real writer made while the upstream handler runs. -/
def callsDuringHandler (L : Lib) (bodyRewrite : rewriteBody L)
    (response : http.ResponseWriter) : List http.Call :=
  (bodyRewrite.next.ServeHTTP (wrap L bodyRewrite response)).ResponseWriter.calls

/-- The bytes `ServeHTTP` hands to its rewrite loop: what the buffer holds
after `decompressBody`. -/
def rulesInput (L : Lib) (bodyRewrite : rewriteBody L) (response : http.ResponseWriter) :
    Bytes :=
  ((bodyRewrite.next.ServeHTTP (wrap L bodyRewrite response)).decompressBody L).2.buffer

/-- The header map `WriteHeader` of the wrapped writer leaves and passes on:
without Content-Length, and without Last-Modified unless it is preserved. -/
def strippedHeader (w : responseWriter) : http.Header :=
  (if w.lastModified then w.ResponseWriter.header
   else w.ResponseWriter.header.Del "Last-Modified").Del "Content-Length"

/-- The configured pair and the rule built from it agree: the rule holds the
compiled pattern and the replacement bytes of the pair. -/
def builtFrom (L : Lib) (c : Rewrite) (r : rewrite L) : Prop :=
  L.Compile c.Regex = Except.ok r.regex ∧ r.replacement = bytesOf c.Replacement

/-- An upstream handler that sets Content-Length and Last-Modified and
returns without calling WriteHeader or Write. -/
def headersOnly : Handler :=
  [ HandlerCall.Header (fun h => h.Set "Last-Modified" "Thu, 02 Jun 2016 06:01:08 GMT"),
    HandlerCall.Header (fun h => h.Set "Content-Length" "18") ]

/-- The plugin with the rule foo to bar and LastModified false, in front of
the handler `headersOnly`. -/
def headersOnlyPlugin : rewriteBody goLib :=
  { name := "rewriteBody", next := headersOnly, rewrites := [fooToBar], lastModified := false }

/-- An upstream handler that sets Last-Modified and Content-Length, calls
Flush, and then writes its body without calling WriteHeader. -/
def flushFirst : Handler :=
  [ HandlerCall.Header (fun h => h.Set "Last-Modified" "Thu, 02 Jun 2016 06:01:08 GMT"),
    HandlerCall.Header (fun h => h.Set "Content-Length" "18"),
    HandlerCall.Flush,
    HandlerCall.Write (bytesOf "foo is the new bar") ]

/-- The plugin with the rule foo to bar and LastModified false, in front of
the handler `flushFirst`. -/
def flushFirstPlugin : rewriteBody goLib :=
  { name := "rewriteBody", next := flushFirst, rewrites := [fooToBar], lastModified := false }

/-- The call is passed on to the real writer as it is: a Flush when the real
writer is a Flusher, a Hijack when it is a Hijacker. -/
def HandlerCall.reaches (r : http.ResponseWriter) : HandlerCall → Bool
  | HandlerCall.Flush => r.flusher
  | HandlerCall.Hijack => r.hijacker
  | _ => false

/-- The call fixes the status and the headers of the response: it is a
WriteHeader or a Write. -/
def HandlerCall.writes : HandlerCall → Bool
  | HandlerCall.WriteHeader _ => true
  | HandlerCall.Write _ => true
  | _ => false

/-! ## Lemmas on the wrapped writer -/

theorem rewriteLoop_eq_applyRules (L : Lib) (rewrites : List (rewrite L)) (b : Bytes) :
    rewriteLoop L rewrites b = applyRules L rewrites b := by
  induction rewrites generalizing b with
  | nil => rfl
  | cons r rs ih => simpa [rewriteLoop, applyRules] using ih _

theorem WriteHeader_buffer (w : responseWriter) (c : Int) :
    (w.WriteHeader c).buffer = w.buffer := by
  unfold responseWriter.WriteHeader responseWriter.delHeader
  cases w.lastModified <;> rfl

theorem WriteHeader_calls (w : responseWriter) (c : Int) :
    (w.WriteHeader c).ResponseWriter.calls =
      w.ResponseWriter.calls ++ [http.Call.WriteHeader c (w.WriteHeader c).ResponseWriter.header] := by
  unfold responseWriter.WriteHeader responseWriter.delHeader http.ResponseWriter.WriteHeader
  cases w.lastModified <;> rfl

theorem call_buffer (w : responseWriter) (c : HandlerCall) :
    (w.call c).buffer = w.buffer ++ Handler.body [c] := by
  cases c with
  | Header f => simp [responseWriter.call, Handler.body]
  | WriteHeader s => simp [responseWriter.call, Handler.body, WriteHeader_buffer]
  | Write p =>
    simp only [responseWriter.call, responseWriter.Write, Handler.body, List.append_nil]
    split <;> simp [WriteHeader_buffer]
  | Flush =>
    simp only [responseWriter.call, responseWriter.Flush, Handler.body, List.append_nil]
    split <;> rfl
  | Hijack =>
    simp only [responseWriter.call, responseWriter.Hijack, Handler.body, List.append_nil]
    split <;> rfl

theorem body_append (a b : Handler) : Handler.body (a ++ b) = Handler.body a ++ Handler.body b := by
  induction a with
  | nil => rfl
  | cons c cs ih => cases c <;> simp [Handler.body, ih]

theorem ServeHTTP_buffer (next : Handler) (w : responseWriter) :
    (next.ServeHTTP w).buffer = w.buffer ++ next.body := by
  induction next generalizing w with
  | nil => simp [Handler.ServeHTTP, Handler.body]
  | cons c cs ih =>
    have h := ih (w.call c)
    simp only [Handler.ServeHTTP, List.foldl_cons] at h ⊢
    rw [h, call_buffer, List.append_assoc, ← body_append]
    rfl

theorem call_writes (w : responseWriter) (c : HandlerCall) :
    (w.call c).ResponseWriter.calls.filter http.Call.isWrite =
      w.ResponseWriter.calls.filter http.Call.isWrite := by
  cases c with
  | Header f => simp [responseWriter.call]
  | WriteHeader s =>
    simp [responseWriter.call, WriteHeader_calls, List.filter_append, http.Call.isWrite]
  | Write p =>
    simp only [responseWriter.call, responseWriter.Write]
    split <;> simp [WriteHeader_calls, List.filter_append, http.Call.isWrite]
  | Flush =>
    simp only [responseWriter.call, responseWriter.Flush]
    split <;> simp [http.ResponseWriter.Flush, List.filter_append, http.Call.isWrite]
  | Hijack =>
    simp only [responseWriter.call, responseWriter.Hijack]
    split <;> simp [http.ResponseWriter.Hijack, List.filter_append, http.Call.isWrite]

theorem ServeHTTP_writes (next : Handler) (w : responseWriter) :
    (next.ServeHTTP w).ResponseWriter.calls.filter http.Call.isWrite =
      w.ResponseWriter.calls.filter http.Call.isWrite := by
  induction next generalizing w with
  | nil => rfl
  | cons c cs ih =>
    have h := ih (w.call c)
    simp only [Handler.ServeHTTP, List.foldl_cons] at h ⊢
    rw [h, call_writes]

theorem bodyWritten_append (a b : List http.Call) :
    http.bodyWritten (a ++ b) = http.bodyWritten a ++ http.bodyWritten b := by
  induction a with
  | nil => rfl
  | cons c cs ih => cases c <;> simp [http.bodyWritten, ih]

theorem bodyWritten_filter (a : List http.Call) :
    http.bodyWritten (a.filter http.Call.isWrite) = http.bodyWritten a := by
  induction a with
  | nil => rfl
  | cons c cs ih => cases c <;> simp [http.bodyWritten, http.Call.isWrite, List.filter, ih]

theorem decompressBody_not_gzip (L : Lib) (w : responseWriter)
    (h : w.ResponseWriter.header.Get "Content-Encoding" ≠ "gzip") :
    w.decompressBody L = ((false, none), w) := by
  simp [responseWriter.decompressBody, h]

theorem decompressBody_gzip (L : Lib) (w : responseWriter)
    (h : w.ResponseWriter.header.Get "Content-Encoding" = "gzip") :
    (w.decompressBody L).1.1 = true ∧
      (w.decompressBody L).2.ResponseWriter = w.ResponseWriter := by
  simp only [responseWriter.decompressBody, h, bne_self_eq_false, Bool.false_eq_true, if_false]
  split <;> simp

theorem decompressBody_writer (L : Lib) (w : responseWriter) :
    (w.decompressBody L).2.ResponseWriter = w.ResponseWriter := by
  simp only [responseWriter.decompressBody]
  split
  · rfl
  · split <;> simp

/-- The last step of `ServeHTTP`, whatever the path: one `Write` on the real
writer after the calls made while the upstream handler ran. -/
theorem ServeHTTP_calls (L : Lib) (bodyRewrite : rewriteBody L) (response : http.ResponseWriter) :
    ∃ payload,
      (bodyRewrite.ServeHTTP L response).calls =
        callsDuringHandler L bodyRewrite response ++
          [http.Call.Write payload (upstreamHeader L bodyRewrite response)] := by
  have hw := decompressBody_writer L (bodyRewrite.next.ServeHTTP (wrap L bodyRewrite response))
  simp only [rewriteBody.ServeHTTP, callsDuringHandler, upstreamHeader]
  generalize (bodyRewrite.next.ServeHTTP (wrap L bodyRewrite response)).decompressBody L = r at hw
  obtain ⟨⟨g, e⟩, w2⟩ := r
  simp only at hw ⊢
  rw [hw]
  split
  · exact ⟨_, rfl⟩
  · exact ⟨_, rfl⟩

theorem ServeHTTP_not_gzip (L : Lib) (bodyRewrite : rewriteBody L) (response : http.ResponseWriter)
    (h : (upstreamHeader L bodyRewrite response).Get "Content-Encoding" ≠ "gzip") :
    (bodyRewrite.ServeHTTP L response).calls =
      callsDuringHandler L bodyRewrite response ++
        [http.Call.Write
          (if (upstreamHeader L bodyRewrite response).Get "Content-Encoding" ≠ "" ∧
              (upstreamHeader L bodyRewrite response).Get "Content-Encoding" ≠ "identity"
           then bodyRewrite.next.body
           else applyRules L bodyRewrite.rewrites bodyRewrite.next.body)
          (upstreamHeader L bodyRewrite response)] := by
  have hb : (bodyRewrite.next.ServeHTTP (wrap L bodyRewrite response)).buffer =
      bodyRewrite.next.body := by
    rw [ServeHTTP_buffer]; rfl
  simp only [upstreamHeader] at h
  simp only [rewriteBody.ServeHTTP, callsDuringHandler, upstreamHeader,
    decompressBody_not_gzip L _ h, hb, rewriteLoop_eq_applyRules, prepareBodyBytes]
  by_cases h1 : (bodyRewrite.next.ServeHTTP (wrap L bodyRewrite response)).ResponseWriter.header.Get
      "Content-Encoding" = ""
  · simp [h1, http.ResponseWriter.Write]
  · by_cases h2 : (bodyRewrite.next.ServeHTTP
        (wrap L bodyRewrite response)).ResponseWriter.header.Get "Content-Encoding" = "identity"
    · simp [h2, http.ResponseWriter.Write]
    · simp [h1, h2, http.ResponseWriter.Write]

theorem callsDuringHandler_body (L : Lib) (bodyRewrite : rewriteBody L)
    (response : http.ResponseWriter) :
    http.bodyWritten (callsDuringHandler L bodyRewrite response) =
      http.bodyWritten response.calls := by
  rw [← bodyWritten_filter, callsDuringHandler, ServeHTTP_writes, bodyWritten_filter]
  rfl

/-! ## The claims -/

/-- C1: when the upstream Content-Encoding is empty or "identity", the body
ServeHTTP writes to the real writer is the result of applying every rule, in
configured order and each on the output of the one before, to the
concatenation of the upstream writes. -/
theorem ServeHTTP_identity_applies_rules (L : Lib) (bodyRewrite : rewriteBody L)
    (response : http.ResponseWriter)
    (h : (upstreamHeader L bodyRewrite response).Get "Content-Encoding" = "" ∨
         (upstreamHeader L bodyRewrite response).Get "Content-Encoding" = "identity") :
    http.bodyWritten (bodyRewrite.ServeHTTP L response).calls =
      http.bodyWritten response.calls ++
        applyRules L bodyRewrite.rewrites bodyRewrite.next.body := by
  have hg : (upstreamHeader L bodyRewrite response).Get "Content-Encoding" ≠ "gzip" := by
    rcases h with h | h <;> rw [h] <;> decide
  rw [ServeHTTP_not_gzip L bodyRewrite response hg, bodyWritten_append, callsDuringHandler_body]
  rcases h with h | h <;> simp [h, http.bodyWritten]

/-- C2: when the upstream Content-Encoding is neither empty, "identity" nor
"gzip", the body ServeHTTP writes to the real writer is the concatenation of
the upstream writes, whatever the rules are. -/
theorem ServeHTTP_other_encoding_passes_through (L : Lib) (bodyRewrite : rewriteBody L)
    (response : http.ResponseWriter)
    (h1 : (upstreamHeader L bodyRewrite response).Get "Content-Encoding" ≠ "")
    (h2 : (upstreamHeader L bodyRewrite response).Get "Content-Encoding" ≠ "identity")
    (h3 : (upstreamHeader L bodyRewrite response).Get "Content-Encoding" ≠ "gzip") :
    http.bodyWritten (bodyRewrite.ServeHTTP L response).calls =
      http.bodyWritten response.calls ++ bodyRewrite.next.body := by
  rw [ServeHTTP_not_gzip L bodyRewrite response h3, bodyWritten_append, callsDuringHandler_body]
  simp [h1, h2, http.bodyWritten]

/-- C8: a Write on the wrapped writer reports len(p) and no error and appends
p to the buffer without any Write on the real writer; the buffer the upstream
handler leaves is the concatenation of its writes; no Write reaches the real
writer while the upstream handler runs; and after it has returned ServeHTTP
makes exactly one Write on the real writer, on every path. -/
theorem ServeHTTP_buffers_then_writes_once (L : Lib) (bodyRewrite : rewriteBody L)
    (response : http.ResponseWriter) :
    (∀ (w : responseWriter) (p : Bytes),
        (w.Write p).1 = (p.length, none) ∧ (w.Write p).2.buffer = w.buffer ++ p ∧
        (w.Write p).2.ResponseWriter.calls.filter http.Call.isWrite =
          w.ResponseWriter.calls.filter http.Call.isWrite) ∧
    (bodyRewrite.next.ServeHTTP (wrap L bodyRewrite response)).buffer = bodyRewrite.next.body ∧
    (callsDuringHandler L bodyRewrite response).filter http.Call.isWrite =
      response.calls.filter http.Call.isWrite ∧
    (∃ payload header,
      (bodyRewrite.ServeHTTP L response).calls =
        callsDuringHandler L bodyRewrite response ++ [http.Call.Write payload header]) ∧
    ((bodyRewrite.ServeHTTP L response).calls.filter http.Call.isWrite).length =
      (response.calls.filter http.Call.isWrite).length + 1 := by
  have hw : (callsDuringHandler L bodyRewrite response).filter http.Call.isWrite =
      response.calls.filter http.Call.isWrite := by
    rw [callsDuringHandler, ServeHTTP_writes]; rfl
  obtain ⟨payload, hp⟩ := ServeHTTP_calls L bodyRewrite response
  refine ⟨?_, ?_, hw, ⟨payload, _, hp⟩, ?_⟩
  · intro w p
    refine ⟨rfl, ?_, ?_⟩
    · simpa [Handler.body, responseWriter.call] using call_buffer w (HandlerCall.Write p)
    · simpa [responseWriter.call] using call_writes w (HandlerCall.Write p)
  · rw [ServeHTTP_buffer]; rfl
  · rw [hp, List.filter_append, hw]
    simp [http.Call.isWrite]

/-- C1, at the exchanges of the test file: with an empty Content-Encoding the
rules foo to bar, then bar to foo, turn "foo is the new bar" into "foo is the
new foo"; with "identity" the single rule foo to bar emits "bar is the new
bar". -/
theorem ServeHTTP_identity_applies_rules_witness :
    http.bodyWritten ((testPlugin [fooToBar, barToFoo] false "" ""
        (bytesOf "foo is the new bar")).ServeHTTP goLib recorder).calls =
      bytesOf "foo is the new foo" ∧
    http.bodyWritten ((testPlugin [fooToBar] false "identity" "text/html"
        (bytesOf "foo is the new bar")).ServeHTTP goLib recorder).calls =
      bytesOf "bar is the new bar" :=
  ⟨(ServeHTTP_identity_applies_rules goLib
      (testPlugin [fooToBar, barToFoo] false "" "" (bytesOf "foo is the new bar")) recorder
      (by decide)).trans (by decide),
   (ServeHTTP_identity_applies_rules goLib
      (testPlugin [fooToBar] false "identity" "text/html" (bytesOf "foo is the new bar")) recorder
      (by decide)).trans (by decide)⟩

/-- C2, at the exchange of the test file: with Content-Encoding "other" the
body "foo is the new bar" reaches the real writer unchanged although the
rule foo to bar is configured. -/
theorem ServeHTTP_other_encoding_passes_through_witness :
    http.bodyWritten ((testPlugin [fooToBar] false "other" ""
        (bytesOf "foo is the new bar")).ServeHTTP goLib recorder).calls =
      bytesOf "foo is the new bar" :=
  (ServeHTTP_other_encoding_passes_through goLib
    (testPlugin [fooToBar] false "other" "" (bytesOf "foo is the new bar")) recorder
    (by decide) (by decide) (by decide)).trans (by decide)

/-! ### New -/

theorem New_loop_ok (L : Lib) (cfg : List Rewrite) (acc rs : List (rewrite L))
    (h : New.loop L cfg acc = Except.ok rs) :
    ∃ built, rs = acc ++ built ∧ List.Forall₂ (builtFrom L) cfg built := by
  induction cfg generalizing acc with
  | nil =>
    simp only [New.loop, Except.ok.injEq] at h
    exact ⟨[], by simp [h], List.Forall₂.nil⟩
  | cons c cs ih =>
    simp only [New.loop] at h
    split at h
    · cases h
    · rename_i regex hc
      obtain ⟨built, hb, hf⟩ := ih _ h
      refine ⟨{ regex := regex, replacement := bytesOf c.Replacement } :: built, ?_, ?_⟩
      · simpa using hb
      · exact List.Forall₂.cons ⟨hc, rfl⟩ hf

theorem New_loop_error (L : Lib) (cfg : List Rewrite) (acc : List (rewrite L)) (e : NewError L)
    (h : New.loop L cfg acc = Except.error e) :
    ∃ pre r post, cfg = pre ++ r :: post ∧
      (∀ x ∈ pre, ∃ re, L.Compile x.Regex = Except.ok re) ∧
      L.Compile r.Regex = Except.error e.err ∧ e.regex = r.Regex := by
  induction cfg generalizing acc with
  | nil => simp [New.loop] at h
  | cons c cs ih =>
    simp only [New.loop] at h
    split at h
    · rename_i err hc
      simp only [Except.error.injEq] at h
      subst h
      exact ⟨[], c, cs, rfl, by simp, hc, rfl⟩
    · rename_i regex hc
      obtain ⟨pre, r, post, h1, h2, h3, h4⟩ := ih _ h
      refine ⟨c :: pre, r, post, by simp [h1], ?_, h3, h4⟩
      intro x hx
      rcases List.mem_cons.mp hx with rfl | hx
      · exact ⟨regex, hc⟩
      · exact h2 x hx

/-- C5: New returns an error exactly when some configured pattern fails to
compile. The error then carries the first pattern, in configured order, that
fails to compile (and the compile error), and no handler is returned. When
every pattern compiles New returns a handler whose rules match the configured
pairs one by one, in order, each rule holding its compiled pattern and its
replacement bytes, and whose lastModified, next and name are the ones given. -/
theorem New_spec (L : Lib) (next : Handler) (config : Config) (name : String) :
    ((∃ e, New L next config name = Except.error e) ↔
      ∃ r ∈ config.Rewrites, ∃ err, L.Compile r.Regex = Except.error err) ∧
    (∀ e, New L next config name = Except.error e →
      ∃ pre r post, config.Rewrites = pre ++ r :: post ∧
        (∀ x ∈ pre, ∃ re, L.Compile x.Regex = Except.ok re) ∧
        L.Compile r.Regex = Except.error e.err ∧ e.regex = r.Regex) ∧
    ((∀ r ∈ config.Rewrites, ∃ re, L.Compile r.Regex = Except.ok re) →
      ∃ h, New L next config name = Except.ok h) ∧
    (∀ h, New L next config name = Except.ok h →
      List.Forall₂ (builtFrom L) config.Rewrites h.rewrites ∧
        h.lastModified = config.LastModified ∧ h.next = next ∧ h.name = name) := by
  have herr : ∀ e, New L next config name = Except.error e →
      ∃ pre r post, config.Rewrites = pre ++ r :: post ∧
        (∀ x ∈ pre, ∃ re, L.Compile x.Regex = Except.ok re) ∧
        L.Compile r.Regex = Except.error e.err ∧ e.regex = r.Regex := by
    intro e he
    simp only [New] at he
    split at he
    · rename_i e1 h1
      simp only [Except.error.injEq] at he
      subst he
      exact New_loop_error L _ _ _ h1
    · cases he
  have hok : ∀ h, New L next config name = Except.ok h →
      List.Forall₂ (builtFrom L) config.Rewrites h.rewrites ∧
        h.lastModified = config.LastModified ∧ h.next = next ∧ h.name = name := by
    intro h hh
    simp only [New] at hh
    split at hh
    · cases hh
    · rename_i rs h1
      simp only [Except.ok.injEq] at hh
      subst hh
      obtain ⟨built, hb, hf⟩ := New_loop_ok L _ _ _ h1
      simp only [List.nil_append] at hb
      subst hb
      exact ⟨hf, rfl, rfl, rfl⟩
  have hfail : (∃ e, New L next config name = Except.error e) →
      ∃ r ∈ config.Rewrites, ∃ err, L.Compile r.Regex = Except.error err := by
    rintro ⟨e, he⟩
    obtain ⟨pre, r, post, h1, _, h3, _⟩ := herr e he
    exact ⟨r, by simp [h1], e.err, h3⟩
  have hall : (∃ r ∈ config.Rewrites, ∃ err, L.Compile r.Regex = Except.error err) →
      ∃ e, New L next config name = Except.error e := by
    rintro ⟨r, hr, err, hc⟩
    cases hn : New L next config name with
    | error e => exact ⟨e, rfl⟩
    | ok h =>
      exfalso
      obtain ⟨hf, _⟩ := hok h hn
      have : ∀ (cs : List Rewrite) (rs : List (rewrite L)), List.Forall₂ (builtFrom L) cs rs →
          r ∈ cs → False := by
        intro cs rs hfa
        induction hfa with
        | nil => simp
        | cons hab _ ih =>
          intro hm
          rcases List.mem_cons.mp hm with rfl | hm
          · rw [hab.1] at hc
            cases hc
          · exact ih hm
      exact this _ _ hf hr
  refine ⟨⟨hfail, hall⟩, herr, ?_, hok⟩
  intro hcomp
  cases hn : New L next config name with
  | ok h => exact ⟨h, rfl⟩
  | error e =>
    exfalso
    obtain ⟨r, hr, err, hc⟩ := hfail ⟨e, hn⟩
    obtain ⟨re, hre⟩ := hcomp r hr
    rw [hre] at hc
    cases hc

/-- C5, at the configurations of TestNew: the pattern "*" makes New fail, and
the error names it; the patterns "foo" and "bar" make New succeed. -/
theorem New_spec_witness :
    (∃ e, New goLib [] starConfig "rewriteBody" = Except.error e ∧ e.regex = "*") ∧
    (∃ h, New goLib [] fooBarConfig "rewriteBody" = Except.ok h) := by
  constructor
  · obtain ⟨e, he⟩ := (New_spec goLib [] starConfig "rewriteBody").1.mpr
      ⟨{ Regex := "*", Replacement := "bar" }, by simp [starConfig],
        golib.CompileError.missingRepetitionArgument, rfl⟩
    refine ⟨e, he, ?_⟩
    obtain ⟨pre, r, post, h1, _, _, h4⟩ := (New_spec goLib [] starConfig "rewriteBody").2.1 e he
    have hr : r ∈ starConfig.Rewrites := by
      rw [h1]; simp
    rw [h4, List.mem_singleton.mp hr]
  · apply (New_spec goLib [] fooBarConfig "rewriteBody").2.2.1
    intro r hr
    simp only [fooBarConfig, List.mem_cons, List.mem_singleton, List.not_mem_nil, or_false] at hr
    rcases hr with rfl | rfl
    · exact ⟨bytesOf "foo", rfl⟩
    · exact ⟨bytesOf "bar", rfl⟩

/-! ### Headers -/

theorem WriteHeader_header (w : responseWriter) (c : Int) :
    (w.WriteHeader c).ResponseWriter.header = strippedHeader w := by
  unfold responseWriter.WriteHeader responseWriter.delHeader http.ResponseWriter.WriteHeader
    strippedHeader
  cases w.lastModified <;> rfl

/-- C9, the claim refuted at the handler of the test file: while that handler
runs, its WriteHeader(200) has already reached the real writer, with the
header map from which Content-Length and Last-Modified were removed. -/
theorem WriteHeader_reaches_real_writer_while_handler_runs :
    callsDuringHandler goLib
        (testPlugin [fooToBar] false "" "" (bytesOf "foo is the new bar")) recorder =
      [http.Call.WriteHeader 200 [("Content-Type", [""]), ("Content-Encoding", [""])]] := by
  decide

theorem WriteHeader_wroteHeader (w : responseWriter) (c : Int) :
    (w.WriteHeader c).wroteHeader = true := by
  unfold responseWriter.WriteHeader responseWriter.delHeader
  cases w.lastModified <;> rfl

theorem Write_wroteHeader (w : responseWriter) (p : Bytes) :
    (w.Write p).2.wroteHeader = true := by
  simp only [responseWriter.Write]
  cases hw : w.wroteHeader
  · simp [WriteHeader_wroteHeader]
  · simp [hw]

theorem Write_calls_after_header (w : responseWriter) (p : Bytes) (hw : w.wroteHeader = true) :
    (w.Write p).2.ResponseWriter.calls = w.ResponseWriter.calls := by
  simp [responseWriter.Write, hw]

theorem call_wroteHeader (w : responseWriter) (c : HandlerCall) (hw : w.wroteHeader = true) :
    (w.call c).wroteHeader = true := by
  cases c with
  | Header f => exact hw
  | WriteHeader s => exact WriteHeader_wroteHeader w s
  | Write p => exact Write_wroteHeader w p
  | Flush =>
    simp only [responseWriter.call, responseWriter.Flush]
    split <;> exact hw
  | Hijack =>
    simp only [responseWriter.call, responseWriter.Hijack]
    split <;> exact hw

theorem ServeHTTP_wroteHeader (next : Handler) (w : responseWriter) (hw : w.wroteHeader = true) :
    (next.ServeHTTP w).wroteHeader = true := by
  induction next generalizing w with
  | nil => exact hw
  | cons c cs ih =>
    have h := ih (w.call c) (call_wroteHeader w c hw)
    simpa only [Handler.ServeHTTP, List.foldl_cons] using h

/-- C9 as amended: WriteHeader on the wrapped writer removes Content-Length
(and Last-Modified unless it is preserved) from the header map, at once calls
WriteHeader of the real writer with the same status code and that header
map, and sets wroteHeader; a Write made before any WriteHeader does the same
with status 200. wroteHeader, once set, stays set under every call of the
handler, so a Write that comes after a WriteHeader or after a Write,
whatever the handler called in between, calls nothing on the real writer.
What ServeHTTP adds after the upstream handler has returned is one Write, no
WriteHeader. -/
theorem WriteHeader_is_forwarded_at_once (w : responseWriter) (statusCode : Int) (p q : Bytes)
    (between : Handler)
    (L : Lib) (bodyRewrite : rewriteBody L) (response : http.ResponseWriter) :
    (w.WriteHeader statusCode).ResponseWriter.calls =
      w.ResponseWriter.calls ++ [http.Call.WriteHeader statusCode (strippedHeader w)] ∧
    (w.WriteHeader statusCode).ResponseWriter.header = strippedHeader w ∧
    (w.WriteHeader statusCode).wroteHeader = true ∧
    (w.Write p).2.ResponseWriter.calls =
      (if w.wroteHeader then w.ResponseWriter.calls
       else w.ResponseWriter.calls ++ [http.Call.WriteHeader http.StatusOK (strippedHeader w)]) ∧
    (w.Write p).2.wroteHeader = true ∧
    (∀ c : HandlerCall, w.wroteHeader = true → (w.call c).wroteHeader = true) ∧
    ((between.ServeHTTP (w.WriteHeader statusCode)).Write q).2.ResponseWriter.calls =
      (between.ServeHTTP (w.WriteHeader statusCode)).ResponseWriter.calls ∧
    ((between.ServeHTTP (w.Write p).2).Write q).2.ResponseWriter.calls =
      (between.ServeHTTP (w.Write p).2).ResponseWriter.calls ∧
    (∃ payload,
      (bodyRewrite.ServeHTTP L response).calls =
        callsDuringHandler L bodyRewrite response ++
          [http.Call.Write payload (upstreamHeader L bodyRewrite response)]) := by
  refine ⟨?_, WriteHeader_header w statusCode, WriteHeader_wroteHeader w statusCode, ?_,
    Write_wroteHeader w p, fun c hw => call_wroteHeader w c hw, ?_, ?_,
    ServeHTTP_calls L bodyRewrite response⟩
  · rw [WriteHeader_calls, WriteHeader_header]
  · simp only [responseWriter.Write]
    cases hw : w.wroteHeader
    · simp [WriteHeader_calls, WriteHeader_header]
    · simp
  · exact Write_calls_after_header _ q
      (ServeHTTP_wroteHeader between _ (WriteHeader_wroteHeader w statusCode))
  · exact Write_calls_after_header _ q
      (ServeHTTP_wroteHeader between _ (Write_wroteHeader w p))

/-! ### The gzip path -/

theorem ServeHTTP_gzip (L : Lib) (bodyRewrite : rewriteBody L) (response : http.ResponseWriter)
    (h : (upstreamHeader L bodyRewrite response).Get "Content-Encoding" = "gzip") :
    (bodyRewrite.ServeHTTP L response).calls =
      callsDuringHandler L bodyRewrite response ++
        [http.Call.Write
          (prepareBodyBytes L
            (applyRules L bodyRewrite.rewrites (rulesInput L bodyRewrite response)) true)
          (upstreamHeader L bodyRewrite response)] := by
  simp only [upstreamHeader] at h
  have hg := decompressBody_gzip L (bodyRewrite.next.ServeHTTP (wrap L bodyRewrite response)) h
  simp only [rewriteBody.ServeHTTP, callsDuringHandler, upstreamHeader, rulesInput]
  generalize (bodyRewrite.next.ServeHTTP (wrap L bodyRewrite response)).decompressBody L = r at hg
  obtain ⟨⟨g, e⟩, w2⟩ := r
  simp only at hg ⊢
  obtain ⟨hg1, hg2⟩ := hg
  subst hg1
  simp [hg2, rewriteLoop_eq_applyRules, http.ResponseWriter.Write]

/-- C10, the claim refuted at a body that is no gzip stream: with
Content-Encoding "gzip" and the body "foo is the new bar", decompressBody
reports isGzip = true with the header error, yet the bytes handed to the
rewrite rules are " new bar", what the reader left unread, and not the empty
byte string. -/
theorem decompressBody_error_leaves_unread_bytes :
    golib.gunzip (bytesOf "foo is the new bar") = none ∧
    (((testPlugin [fooToBar] false "gzip" "" (bytesOf "foo is the new bar")).next.ServeHTTP
        (wrap goLib (testPlugin [fooToBar] false "gzip" "" (bytesOf "foo is the new bar"))
          recorder)).decompressBody goLib).1 = (true, some golib.Error.ErrHeader) ∧
    rulesInput goLib (testPlugin [fooToBar] false "gzip" "" (bytesOf "foo is the new bar"))
        recorder = bytesOf " new bar" ∧
    rulesInput goLib (testPlugin [fooToBar] false "gzip" "" (bytesOf "foo is the new bar"))
        recorder ≠ [] :=
  ⟨by decide, rfl, by decide, by decide⟩

/-- C10 as amended: when the upstream Content-Encoding is "gzip",
decompressBody reports isGzip = true together with the error of the gzip
reader, if it returned one; such an error does not abort the exchange:
ServeHTTP still runs the rewrite rules and makes its one Write on the real
writer, and what it writes is the gzip encoding of the rewritten bytes
whenever the gzip writer reports no error. -/
theorem ServeHTTP_gzip_error_does_not_abort (L : Lib) (bodyRewrite : rewriteBody L)
    (response : http.ResponseWriter)
    (h : (upstreamHeader L bodyRewrite response).Get "Content-Encoding" = "gzip") :
    ((bodyRewrite.next.ServeHTTP (wrap L bodyRewrite response)).decompressBody L).1 =
      (true, match L.NewReader bodyRewrite.next.body with
             | (Except.error err, _) => some err
             | (Except.ok r, unread) => (L.ReadNil r unread).1) ∧
    (bodyRewrite.ServeHTTP L response).calls =
      callsDuringHandler L bodyRewrite response ++
        [http.Call.Write
          (prepareBodyBytes L
            (applyRules L bodyRewrite.rewrites (rulesInput L bodyRewrite response)) true)
          (upstreamHeader L bodyRewrite response)] ∧
    (∀ gzipWriter encoded,
      L.WriterWrite (applyRules L bodyRewrite.rewrites (rulesInput L bodyRewrite response)) =
        Except.ok gzipWriter →
      L.WriterClose gzipWriter = Except.ok encoded →
      prepareBodyBytes L
        (applyRules L bodyRewrite.rewrites (rulesInput L bodyRewrite response)) true = encoded) := by
  refine ⟨?_, ServeHTTP_gzip L bodyRewrite response h, ?_⟩
  · have hb : (bodyRewrite.next.ServeHTTP (wrap L bodyRewrite response)).buffer =
        bodyRewrite.next.body := by
      rw [ServeHTTP_buffer]; rfl
    simp only [upstreamHeader] at h
    simp only [responseWriter.decompressBody, h, bne_self_eq_false, Bool.false_eq_true,
      if_false, hb]
    split <;> simp_all
  · intro gzipWriter encoded hw hc
    simp [prepareBodyBytes, hw, hc]

set_option maxRecDepth 100000 in
/-- C10 as amended, at the body "foo is the new bar" sent with
Content-Encoding "gzip": the exchange ends with the gzip encoding of
" new bar" written to the real writer. -/
theorem ServeHTTP_gzip_error_does_not_abort_witness :
    http.bodyWritten ((testPlugin [fooToBar] false "gzip" ""
        (bytesOf "foo is the new bar")).ServeHTTP goLib recorder).calls =
      golib.gzipEncode (bytesOf " new bar") :=
  (congrArg http.bodyWritten
    (ServeHTTP_gzip_error_does_not_abort goLib
      (testPlugin [fooToBar] false "gzip" "" (bytesOf "foo is the new bar")) recorder
      (by decide)).2.1).trans (by decide)

/-! ## Exchanges of the test file the code fails -/

set_option maxRecDepth 100000 in
/-- C3, the failing exchange ("should support gzip encoding"): the upstream
body is the gzip encoding of "foo is the new bar" and Content-Encoding is
"gzip". The one Read of decompressBody runs the decompressor through both
blocks of the stream and stops with the decoded bytes waiting inside the
reader, where they stay; the rewrite rules receive the
eight bytes left unread in the buffer (the gzip trailer), and the body
written decodes to those eight bytes, not to "bar is the new bar", the rule
applied to the decoded body. -/
theorem ServeHTTP_gzip_rewrites_the_unread_trailer :
    golib.gunzip gzippedBytes = some (bytesOf "foo is the new bar") ∧
    (golib.inflate true (gzippedBytes.drop 10)).status = golib.Status.more ∧
    rulesInput goLib (testPlugin [fooToBar] true "gzip" "" gzippedBytes) recorder =
      [251, 28, 166, 187, 18, 0, 0, 0] ∧
    golib.gunzip (http.bodyWritten
        ((testPlugin [fooToBar] true "gzip" "" gzippedBytes).ServeHTTP goLib recorder).calls) =
      some [251, 28, 166, 187, 18, 0, 0, 0] ∧
    applyRules goLib [fooToBar] (bytesOf "foo is the new bar") = bytesOf "bar is the new bar" := by
  decide

set_option maxRecDepth 100000 in
/-- C6, the failing exchange ("should support deflate encoding"): the
upstream body is the zlib encoding of "foo is the new bar" and
Content-Encoding is "deflate". The body written is the upstream body,
unchanged; it decodes to "foo is the new bar", while the rule applied to the
decoded body gives "bar is the new bar". -/
theorem ServeHTTP_deflate_is_passed_through :
    golib.zlibDecode zlibBytes = some (bytesOf "foo is the new bar") ∧
    http.bodyWritten
        ((testPlugin [fooToBar] true "deflate" "" zlibBytes).ServeHTTP goLib recorder).calls =
      zlibBytes ∧
    applyRules goLib [fooToBar] (bytesOf "foo is the new bar") = bytesOf "bar is the new bar" := by
  decide

/-- C7, the failing exchange ("should not replace anything if content type
does not contain text or is not empty"): with Content-Type "image" and an
empty Content-Encoding the rule foo to bar is applied all the same, and the
body written is "bar is the new bar". -/
theorem ServeHTTP_rewrites_whatever_the_content_type :
    (upstreamHeader goLib (testPlugin [fooToBar] false "" "image"
        (bytesOf "foo is the new bar")) recorder).Get "Content-Type" = "image" ∧
    http.bodyWritten ((testPlugin [fooToBar] false "" "image"
        (bytesOf "foo is the new bar")).ServeHTTP goLib recorder).calls =
      bytesOf "bar is the new bar" := by
  decide

/-- C4, the failing exchange: the upstream handler sets Content-Length and
Last-Modified and returns without calling WriteHeader or Write, and
LastModified is false. The header map the final Write emits still holds
Content-Length and Last-Modified. -/
theorem ServeHTTP_emits_unstripped_headers :
    (http.headerEmitted (headersOnlyPlugin.ServeHTTP goLib recorder).calls).map
        (fun h => (h.has "Content-Length", h.has "Last-Modified")) = some (true, true) ∧
    http.bodyWritten (headersOnlyPlugin.ServeHTTP goLib recorder).calls = [] := by
  decide

/-! ## Further properties -/

theorem has_Del_self (h : http.Header) (key : String) : (h.Del key).has key = false := by
  simp only [http.Header.Del, http.Header.has]
  rw [List.any_eq_false]
  intro x hx
  have hx2 := (List.mem_filter.mp hx).2
  simpa using hx2

theorem has_Del_other (h : http.Header) (key other : String) (hne : key ≠ other) :
    (h.Del other).has key = h.has key := by
  induction h with
  | nil => rfl
  | cons kv rest ih =>
    simp only [http.Header.Del, http.Header.has] at ih ⊢
    rw [List.filter_cons]
    by_cases hk : kv.1 = other
    · have hk2 : ¬ other = key := fun e => hne e.symm
      simp [hk, hk2, ih]
    · simp [hk, ih]

theorem strippedHeader_has (w : responseWriter) :
    (strippedHeader w).has "Content-Length" = false ∧
    (strippedHeader w).has "Last-Modified" =
      (w.lastModified && w.ResponseWriter.header.has "Last-Modified") := by
  refine ⟨has_Del_self _ _, ?_⟩
  unfold strippedHeader
  rw [has_Del_other _ _ _ (by decide)]
  cases w.lastModified
  · simp [has_Del_self]
  · simp

theorem headerEmitted_append_some (a b : List http.Call) (h : http.Header)
    (ha : http.headerEmitted a = some h) : http.headerEmitted (a ++ b) = some h := by
  induction a with
  | nil => simp [http.headerEmitted] at ha
  | cons c cs ih => cases c <;> simp_all [http.headerEmitted]

theorem call_calls_append (w : responseWriter) (c : HandlerCall) :
    ∃ extra, (w.call c).ResponseWriter.calls = w.ResponseWriter.calls ++ extra := by
  cases c with
  | Header f => exact ⟨[], by simp [responseWriter.call]⟩
  | WriteHeader s => exact ⟨_, WriteHeader_calls w s⟩
  | Write p =>
    simp only [responseWriter.call, responseWriter.Write]
    split
    · exact ⟨_, WriteHeader_calls w _⟩
    · exact ⟨[], by simp⟩
  | Flush =>
    simp only [responseWriter.call, responseWriter.Flush]
    split
    · exact ⟨_, rfl⟩
    · exact ⟨[], by simp⟩
  | Hijack =>
    simp only [responseWriter.call, responseWriter.Hijack]
    split
    · exact ⟨_, rfl⟩
    · exact ⟨[], by simp⟩

theorem ServeHTTP_calls_append (next : Handler) (w : responseWriter) :
    ∃ extra, (next.ServeHTTP w).ResponseWriter.calls = w.ResponseWriter.calls ++ extra := by
  induction next generalizing w with
  | nil => exact ⟨[], by simp [Handler.ServeHTTP]⟩
  | cons c cs ih =>
    obtain ⟨e1, h1⟩ := call_calls_append w c
    obtain ⟨e2, h2⟩ := ih (w.call c)
    refine ⟨e1 ++ e2, ?_⟩
    simp only [Handler.ServeHTTP, List.foldl_cons] at h2 ⊢
    rw [h2, h1, List.append_assoc]

theorem call_quiet (w : responseWriter) (c : HandlerCall) (hc : c.writes = false)
    (hr : c.reaches w.ResponseWriter = false) :
    (w.call c).wroteHeader = w.wroteHeader ∧
      (w.call c).lastModified = w.lastModified ∧
      (w.call c).ResponseWriter.calls = w.ResponseWriter.calls ∧
      (w.call c).ResponseWriter.flusher = w.ResponseWriter.flusher ∧
      (w.call c).ResponseWriter.hijacker = w.ResponseWriter.hijacker := by
  cases c with
  | Header f => exact ⟨rfl, rfl, rfl, rfl, rfl⟩
  | WriteHeader s => simp [HandlerCall.writes] at hc
  | Write p => simp [HandlerCall.writes] at hc
  | Flush =>
    simp only [HandlerCall.reaches] at hr
    simp [responseWriter.call, responseWriter.Flush, hr]
  | Hijack =>
    simp only [HandlerCall.reaches] at hr
    simp [responseWriter.call, responseWriter.Hijack, hr]

theorem call_loud (w : responseWriter) (c : HandlerCall) (hc : c.writes = true)
    (hw : w.wroteHeader = false) (hn : w.ResponseWriter.calls = []) :
    http.headerEmitted (w.call c).ResponseWriter.calls = some (strippedHeader w) := by
  cases c with
  | Header f => simp [HandlerCall.writes] at hc
  | Flush => simp [HandlerCall.writes] at hc
  | Hijack => simp [HandlerCall.writes] at hc
  | WriteHeader s =>
    simp only [responseWriter.call]
    rw [WriteHeader_calls, WriteHeader_header, hn]
    rfl
  | Write p =>
    simp only [responseWriter.call, responseWriter.Write, hw, Bool.not_false, if_true]
    rw [WriteHeader_calls, WriteHeader_header, hn]
    rfl

theorem reaches_congr (r1 r2 : http.ResponseWriter) (c : HandlerCall)
    (hf : r1.flusher = r2.flusher) (hh : r1.hijacker = r2.hijacker) :
    c.reaches r1 = c.reaches r2 := by
  cases c <;> simp [HandlerCall.reaches, hf, hh]

theorem handler_fixes_stripped_header (before after : Handler) (c : HandlerCall)
    (w : responseWriter)
    (hw : w.wroteHeader = false) (hn : w.ResponseWriter.calls = [])
    (hq : ∀ x ∈ before, x.writes = false ∧ x.reaches w.ResponseWriter = false)
    (hc : c.writes = true) :
    ∃ w0, w0.lastModified = w.lastModified ∧
      http.headerEmitted (Handler.ServeHTTP (before ++ c :: after) w).ResponseWriter.calls =
        some (strippedHeader w0) := by
  induction before generalizing w with
  | nil =>
    refine ⟨w, rfl, ?_⟩
    obtain ⟨extra, he⟩ := ServeHTTP_calls_append after (w.call c)
    simp only [Handler.ServeHTTP, List.nil_append, List.foldl_cons] at he ⊢
    rw [he]
    exact headerEmitted_append_some _ _ _ (call_loud w c hc hw hn)
  | cons x xs ih =>
    obtain ⟨hx1, hx2⟩ := hq x (List.mem_cons_self x xs)
    obtain ⟨q1, q2, q3, q4, q5⟩ := call_quiet w x hx1 hx2
    have hq2 : ∀ y ∈ xs, y.writes = false ∧ y.reaches (w.call x).ResponseWriter = false := by
      intro y hy
      obtain ⟨hy1, hy2⟩ := hq y (List.mem_cons_of_mem x hy)
      exact ⟨hy1, (reaches_congr _ _ y q4 q5).trans hy2⟩
    obtain ⟨w0, h1, h2⟩ := ih (w.call x) (q1.trans hw) (q3.trans hn) hq2
    refine ⟨w0, h1.trans q2, ?_⟩
    simpa only [Handler.ServeHTTP, List.cons_append, List.foldl_cons] using h2

/-- Header repair when the upstream handler writes first: on a fresh real
writer, if the first call of the upstream handler that reaches the real
writer is a WriteHeader or a Write (before it there are only header changes,
and Flush or Hijack calls the real writer does not support), the header map
emitted to the real writer has no Content-Length, and no Last-Modified when
LastModified is false. -/
theorem ServeHTTP_strips_headers_when_handler_writes_first (L : Lib)
    (bodyRewrite : rewriteBody L) (response : http.ResponseWriter)
    (before after : Handler) (c : HandlerCall)
    (h0 : response.calls = [])
    (hn : bodyRewrite.next = before ++ c :: after)
    (hq : ∀ x ∈ before, x.writes = false ∧ x.reaches response = false)
    (hc : c.writes = true) :
    ∃ h, http.headerEmitted (bodyRewrite.ServeHTTP L response).calls = some h ∧
      h.has "Content-Length" = false ∧
      (bodyRewrite.lastModified = false → h.has "Last-Modified" = false) := by
  obtain ⟨w0, hl, he⟩ :=
    handler_fixes_stripped_header before after c (wrap L bodyRewrite response) rfl h0 hq hc
  obtain ⟨payload, hp⟩ := ServeHTTP_calls L bodyRewrite response
  refine ⟨strippedHeader w0, ?_, (strippedHeader_has w0).1, ?_⟩
  · rw [hp, callsDuringHandler, hn]
    exact headerEmitted_append_some _ _ _ he
  · intro hf
    have hl0 : w0.lastModified = false := hl.trans hf
    rw [(strippedHeader_has w0).2, hl0]
    rfl

/-- Header repair at the exchanges of the test file: with LastModified false
the emitted header map has neither Content-Length nor Last-Modified; with
LastModified true it keeps the Last-Modified the upstream handler set. -/
theorem ServeHTTP_strips_headers_when_handler_writes_first_witness :
    (∃ h, http.headerEmitted ((testPlugin [fooToBar] false "" ""
          (bytesOf "foo is the new bar")).ServeHTTP goLib recorder).calls = some h ∧
        h.has "Content-Length" = false ∧ h.has "Last-Modified" = false) ∧
    (http.headerEmitted ((testPlugin [fooToBar] true "identity" ""
          (bytesOf "foo is the new bar")).ServeHTTP goLib recorder).calls).map
        (fun h => (h.has "Content-Length", h.has "Last-Modified")) = some (false, true) := by
  constructor
  · obtain ⟨h, h1, h2, h3⟩ := ServeHTTP_strips_headers_when_handler_writes_first goLib
      (testPlugin [fooToBar] false "" "" (bytesOf "foo is the new bar")) recorder
      [ HandlerCall.Header (fun h => h.Set "Content-Encoding" ""),
        HandlerCall.Header (fun h => h.Set "Content-Type" ""),
        HandlerCall.Header (fun h => h.Set "Last-Modified" "Thu, 02 Jun 2016 06:01:08 GMT"),
        HandlerCall.Header (fun h => h.Set "Content-Length"
          (toString (bytesOf "foo is the new bar").length)) ]
      [HandlerCall.Write (bytesOf "foo is the new bar")]
      (HandlerCall.WriteHeader http.StatusOK) rfl rfl
      (by
        intro x hx
        simp only [List.mem_cons, List.mem_singleton, List.not_mem_nil, or_false] at hx
        rcases hx with rfl | rfl | rfl | rfl <;> exact ⟨rfl, rfl⟩)
      rfl
    exact ⟨h, h1, h2, h3 rfl⟩
  · decide

/-- A Flush before the first Write, on a real writer that is a Flusher: the
Flush goes to the real writer as it is and sends the header map before
anything was removed from it, so Content-Length and Last-Modified are
emitted although LastModified is false. -/
theorem Flush_before_Write_emits_unstripped_headers :
    (http.headerEmitted (flushFirstPlugin.ServeHTTP goLib recorder).calls).map
        (fun h => (h.has "Content-Length", h.has "Last-Modified")) = some (true, true) := by
  decide

/-- Pass-through of Flush and Hijack: both leave the buffer alone; Flush
reaches the real writer exactly when it is a Flusher, Hijack exactly when it
is a Hijacker, and Hijack reports an error otherwise. -/
theorem Flush_and_Hijack_pass_through (w : responseWriter) :
    w.Flush.buffer = w.buffer ∧
    w.Flush.ResponseWriter.calls =
      (if w.ResponseWriter.flusher
       then w.ResponseWriter.calls ++ [http.Call.Flush w.ResponseWriter.header]
       else w.ResponseWriter.calls) ∧
    w.Hijack.1 = w.ResponseWriter.hijacker ∧
    w.Hijack.2.buffer = w.buffer ∧
    w.Hijack.2.ResponseWriter.calls =
      (if w.ResponseWriter.hijacker then w.ResponseWriter.calls ++ [http.Call.Hijack]
       else w.ResponseWriter.calls) := by
  unfold responseWriter.Flush responseWriter.Hijack http.ResponseWriter.Flush
    http.ResponseWriter.Hijack
  cases w.ResponseWriter.flusher <;> cases w.ResponseWriter.hijacker <;> simp

/-- Recompression: without gzip the bytes are returned as they are; with gzip
the result is what the gzip writer produced, and the bytes themselves when
its Write or its Close reports an error. -/
theorem prepareBodyBytes_spec (L : Lib) (bodyBytes : Bytes) :
    prepareBodyBytes L bodyBytes false = bodyBytes ∧
    (∀ gzipWriter encoded, L.WriterWrite bodyBytes = Except.ok gzipWriter →
      L.WriterClose gzipWriter = Except.ok encoded →
      prepareBodyBytes L bodyBytes true = encoded) ∧
    (∀ err, L.WriterWrite bodyBytes = Except.error err →
      prepareBodyBytes L bodyBytes true = bodyBytes) ∧
    (∀ gzipWriter err, L.WriterWrite bodyBytes = Except.ok gzipWriter →
      L.WriterClose gzipWriter = Except.error err →
      prepareBodyBytes L bodyBytes true = bodyBytes) := by
  refine ⟨rfl, ?_, ?_, ?_⟩
  · intro g e hw hc
    simp [prepareBodyBytes, hw, hc]
  · intro e hw
    simp [prepareBodyBytes, hw]
  · intro g e hw hc
    simp [prepareBodyBytes, hw, hc]

end plugin_rewritebody
